import Mathlib

/-!
# Verification of the `melt` terminal text editor (melt.cpp)

A shallow embedding of the editor's core: tab-expansion utilities,
filename validation, the line-buffer editing primitives, the cursor /
viewport controller with auto-scroll, the command interpreter and the
keyboard event loop, together with theorems checking the design
specification against this embedding.

Strings from the C++ source (`std::string`) are modelled as `List Char`.
`unsigned` fields are modelled as `Nat`, `int` locals as `Int` (the
program never exercises 32-bit overflow on the modelled paths; where the
C++ performs an unsigned subtraction that could wrap only in states that
are unreachable or undefined behaviour, the model uses truncated `Nat`
subtraction and a comment records the difference).
-/

set_option maxRecDepth 4000

abbrev Str := List Char

/-! ## Tab expansion (melt.cpp lines 803-837) -/

/-- The `tab_width` constant from melt.cpp line 803. -/
def tab_width : Nat := 4

/-- Loop body of `Melt::expandTabs` (melt.cpp 804-824): `col` is the running
output column, each `'\t'` becomes `tab_width - col % tab_width` spaces. -/
def expandTabsGo (col : Nat) : Str → Str
  | [] => []
  | c :: rest =>
      if c = '\t' then
        let spaces := tab_width - col % tab_width
        List.replicate spaces ' ' ++ expandTabsGo (col + spaces) rest
      else
        c :: expandTabsGo (col + 1) rest

/-- Function `Melt::expandTabs` (melt.cpp 804-824). -/
def expandTabs (s : Str) : Str := expandTabsGo 0 s

/-- Loop body of `Melt::visualLength` (melt.cpp 826-837): `len` is the running
visual length; a `'\t'` adds `tab_width - len % tab_width`. -/
def visualLengthGo (len : Nat) : Str → Nat
  | [] => len
  | c :: rest =>
      if c = '\t' then visualLengthGo (len + (tab_width - len % tab_width)) rest
      else visualLengthGo (len + 1) rest

/-- Function `Melt::visualLength` (melt.cpp 826-837). -/
def visualLength (s : Str) : Nat := visualLengthGo 0 s

/-! ## Filename validation (melt.cpp 739-779) -/

/-- The `MAX_FN_LEN` constant from melt.cpp line 739. -/
def MAX_FN_LEN : Nat := 255

/-- The reserved Windows filenames of melt.cpp lines 750-752. -/
def reservedNames : List Str :=
  ["CON", "PRN", "AUX", "NUL", "COM1", "COM2", "COM3", "COM4", "COM5", "COM6",
   "COM7", "COM8", "COM9", "LPT1", "LPT2", "LPT3", "LPT4", "LPT5", "LPT6",
   "LPT7", "LPT8", "LPT9"].map String.toList

/-- The disallowed characters of melt.cpp line 755. -/
def invalidChars : Str := "<>:\"/\\|?*".toList

/-- The value of a byte read as a signed C++ `char` (the comparison
`c < 32` at melt.cpp line 764 is done on a signed `char`, so bytes
128-255 compare as negative). Characters outside the byte range do not
occur in C++ strings and are mapped like their low byte. -/
def sCharVal (c : Char) : Int :=
  if c.toNat % 256 < 128 then (c.toNat % 256 : Nat) else (c.toNat % 256 : Nat) - 256

/-- Function `::toupper` (C locale) as used at melt.cpp line 776: maps `a`-`z` to
`A`-`Z`, everything else unchanged. -/
def upChar (c : Char) : Char :=
  if 'a' ≤ c ∧ c ≤ 'z' then Char.ofNat (c.toNat - 32) else c

/-- Function `Melt::valFn` (melt.cpp 740-779): cross-platform filename validity. -/
def valFn (fn : Str) : Bool :=
  if fn = [] then false
  else if MAX_FN_LEN < fn.length then false
  else if fn.headD ' ' = ' ' ∨ fn.getLastD ' ' = ' ' ∨ fn.getLastD ' ' = '.' then false
  else if fn.any (fun c => sCharVal c < 32 ∨ invalidChars.contains c) then false
  else
    -- base name: up to the first '.' (melt.cpp 769-772), uppercased (774-776)
    let nameOnly := fn.takeWhile (fun c => c ≠ '.')
    ¬ reservedNames.contains (nameOnly.map upChar)

/-- The filename-validity predicate exactly as the specification words it
(spec section 4.4): non-empty, at most 255 characters, no leading or
trailing space, no trailing period, no control characters (< 32), none of
the characters `<>:"/\|?*`, and the base name up to the first `.` is not
case-insensitively one of the reserved names. -/
def validSpec (fn : Str) : Prop :=
  fn ≠ [] ∧
  fn.length ≤ 255 ∧
  fn.head? ≠ some ' ' ∧
  fn.getLast? ≠ some ' ' ∧
  fn.getLast? ≠ some '.' ∧
  (∀ c ∈ fn, 32 ≤ c.toNat ∧ c ∉ invalidChars) ∧
  (fn.takeWhile (fun c => c ≠ '.')).map upChar ∉ reservedNames

instance (fn : Str) : Decidable (validSpec fn) := by
  unfold validSpec; infer_instance

/-! ## Text buffer operations (melt.cpp 257-298)

The document is a `List Str` (C++ `std::vector<std::string> lines`).
Index-based vector/string insert and erase are written with
`take`/`drop`, which is exactly what they compute at a valid index. -/

/-- Insertion `s.insert(x, 1, c)` of one character at index `x ≤ s.length`. -/
def strInsert (x : Nat) (c : Char) (s : Str) : Str := s.take x ++ c :: s.drop x

/-- Erasure `s.erase(x, 1)` of one character at index `x < s.length`. -/
def strErase1 (x : Nat) (s : Str) : Str := s.take x ++ s.drop (x + 1)

/-- Function `Melt::insCh` (melt.cpp 257-261). -/
def insCh (x y : Nat) (c : Char) (L : List Str) : List Str :=
  if y < L.length ∧ x ≤ (L.getD y []).length then
    L.set y (strInsert x c (L.getD y []))
  else L

/-- Function `Melt::rmCh` (melt.cpp 263-267). -/
def rmCh (x y : Nat) (L : List Str) : List Str :=
  if y < L.length ∧ x < (L.getD y []).length then
    L.set y (strErase1 x (L.getD y []))
  else L

/-- Function `Melt::insLn` (melt.cpp 269-273): `lines.insert(begin + y, l)`. -/
def insLn (y : Nat) (l : Str) (L : List Str) : List Str :=
  if y ≤ L.length then L.take y ++ l :: L.drop y else L

/-- Function `Melt::rmLn` (melt.cpp 275-279): `lines.erase(begin + y)`. -/
def rmLn (y : Nat) (L : List Str) : List Str :=
  if y < L.length then L.take y ++ L.drop (y + 1) else L

/-- Function `Melt::jnLn` (melt.cpp 281-288). The C++ guard is
`y < lines.size() - 1` on unsigned values; for a non-empty document this
is `y + 1 < lines.size()` (on an empty document the C++ guard wraps
around and the body is undefined behaviour; the model makes it a no-op,
matching truncated `Nat` subtraction). -/
def jnLn (y : Nat) (L : List Str) : List Str :=
  if y < L.length - 1 then
    rmLn (y + 1) (L.set y ((L.getD y []) ++ (L.getD (y + 1) [])))
  else L

/-- Function `Melt::spLn` (melt.cpp 290-298): take the suffix of line `y`
from column `x`, truncate line `y` at `x`, insert the suffix at `y + 1`. -/
def spLn (x y : Nat) (L : List Str) : List Str :=
  if y < L.length ∧ x ≤ (L.getD y []).length then
    insLn (y + 1) ((L.getD y []).drop x) (L.set y ((L.getD y []).take x))
  else L

/-! ## Editor state (melt.cpp 20-98)

Fields of class `Melt` used by the modelled operations. The frame
buffers `front`/`back` always hold `ay` rows (established in `init`,
melt.cpp 192-193, and re-established on resize in `update`, 635-636), so
`front.size()` is represented by `ay`. The renderer itself (pure
output) is not modelled. -/

structure MeltSt where
  lines : List Str
  fstate : Nat
  edmode : Nat
  fname : Str
  smessage : Str
  cmd : Str
  last_cmd : Str
  cx : Nat
  cy : Nat
  ox : Nat
  oy : Nat
  mx : Nat
  my : Nat
  ax : Nat
  ay : Nat
  is_running : Bool
  deriving Repr, DecidableEq

/-- Read a line of the document by (possibly `Int`-typed) index; the C++
indexes the vector directly, which the guards keep in bounds. -/
def lineAt (L : List Str) (i : Int) : Str := L.getD i.toNat []

/-! ## Scrolling (melt.cpp 339-403) -/

/-- Function `Melt::scrollUp` (melt.cpp 367-371). -/
def scrollUp (d : Nat) (st : MeltSt) : MeltSt :=
  if d ≤ st.oy then { st with oy := st.oy - d } else st

/-- Function `Melt::scrollDown` (melt.cpp 373-377). -/
def scrollDown (d : Nat) (st : MeltSt) : MeltSt :=
  if st.oy + d < st.lines.length then { st with oy := st.oy + d } else st

/-- Function `Melt::scrollLeft` (melt.cpp 379-385). -/
def scrollLeft (d : Nat) (st : MeltSt) : MeltSt :=
  if d ≤ st.ox then { st with ox := st.ox - d } else { st with ox := 0 }

/-- Maximum `visualLength` over the currently visible rows: the loop of
melt.cpp 393-399 ranges over `i < front.size()` (i.e. `i < ay`) with
`i + oy < lines.size()`, which is exactly the window
`(lines.drop oy).take ay`. -/
def maxVisLen (L : List Str) (oy ay : Nat) : Nat :=
  ((L.drop oy).take ay).foldl (fun m l => max m (visualLength l)) 0

/-- Function `Melt::scrollRight` (melt.cpp 387-403): scrolls right by `d`
only if that keeps the origin short of the longest visible line. -/
def scrollRight (d : Nat) (st : MeltSt) : MeltSt :=
  if st.ay = 0 then st  -- front.empty()
  else if st.ox + d < maxVisLen st.lines st.oy st.ay then
    { st with ox := st.ox + d }
  else st

/-- Horizontal phase of `Melt::scrollToFit` (melt.cpp 342-352). -/
def scrollToFitH (st : MeltSt) : MeltSt :=
  if st.cx < st.ox then scrollLeft (st.ox - st.cx) st
  else if st.ox + st.ax ≤ st.cx then scrollRight (st.cx - (st.ox + st.ax) + 1) st
  else st

/-- Vertical phase of `Melt::scrollToFit` (melt.cpp 354-364). -/
def scrollToFitV (st : MeltSt) : MeltSt :=
  if st.cy < st.oy then scrollUp (st.oy - st.cy) st
  else if st.oy + st.ay ≤ st.cy then scrollDown (st.cy - (st.oy + st.ay) + 1) st
  else st

/-- Function `Melt::scrollToFit` (melt.cpp 339-365): horizontal axis first,
then vertical, each shifting only when the cursor is outside. -/
def scrollToFit (st : MeltSt) : MeltSt := scrollToFitV (scrollToFitH st)

/-! ## Cursor movement (melt.cpp 304-337) -/

/-- Function `Melt::mvCursor` (melt.cpp 304-337). `nx`, `ny` are the C++
`int` locals; the final stores into the unsigned `cx`, `cy` are `toNat`
(every branch leaves them non-negative when the document is non-empty). -/
def mvCursor (xd yd : Int) (st : MeltSt) : MeltSt :=
  let n : Int := st.lines.length
  let nx0 : Int := (st.cx : Int) + xd
  let ny0 : Int := (st.cy : Int) + yd
  -- melt.cpp 309-312: clamp the row
  let ny1 : Int := if ny0 < 0 then 0 else if n ≤ ny0 then n - 1 else ny0
  -- melt.cpp 314-315: if the row changed, clamp the column to the new row
  let nx1 : Int :=
    if ny1 ≠ (st.cy : Int) ∧ 0 ≤ ny1 ∧ ny1 < n then
      min nx0 ((lineAt st.lines ny1).length : Int)
    else nx0
  -- melt.cpp 317-332: resolve a column that ran off either end
  let p : Int × Int :=
    if nx1 < 0 then
      if 0 < ny1 then (((lineAt st.lines (ny1 - 1)).length : Int), ny1 - 1)
      else (0, ny1)
    else if ((lineAt st.lines ny1).length : Int) < nx1 then
      (0, if ny1 < n - 1 then ny1 + 1 else ny1)
    else (nx1, ny1)
  scrollToFit { st with cx := p.1.toNat, cy := p.2.toNat }

/-! ## Saving (melt.cpp 235-251)

Function `Melt::save` writes the document to the filesystem; only its
empty-filename check is computable from the state. The outcome of the
actual write is abstracted by an oracle `sf : Str -> Option Str`
(`none` = success, `some msg` = the error message the stream layer
reports); every theorem quantifies over the oracle. -/

/-- Function `Melt::save` (melt.cpp 235-251) with the filesystem outcome
abstracted by `sf`. -/
def saveFile (sf : Str → Option Str) (fn : Str) : Option Str :=
  if fn = [] then some "Empty filename!".toList else sf fn

/-- Message built at melt.cpp 536/566. -/
def writtenMsg (fn : Str) : Str := "Successfully written to ".toList ++ fn

/-- Resize of a string to exactly `n` characters padded with spaces
(`std::string::resize(n, ' ')`, melt.cpp 543). -/
def resizeStr (n : Nat) (s : Str) : Str :=
  if s.length ≤ n then s ++ List.replicate (n - s.length) ' ' else s.take n

/-! ## The filename prompt of the `w` command (melt.cpp 540-587) -/

/-- Value of `getch()` truncated into the `char chr` local of melt.cpp 549
and then read back as an `int` in the `switch`: the low byte, sign-extended.
Consequently the `case KEY_ENTER:` (343) and `case KEY_BACKSPACE:` (263)
labels can never match. -/
def sByteVal (k : Nat) : Int :=
  if k % 256 < 128 then (k % 256 : Nat) else (k % 256 : Nat) - 256

/-- Confirm branch of the prompt (melt.cpp 554-570). -/
def wPromptEnter (sf : Str → Option Str) (st : MeltSt) (fn : Str) : MeltSt :=
  if fn = [] then { st with smessage := "Empty filename!".toList }
  else if ¬ valFn fn then { st with smessage := "Invalid filename!".toList }
  else
    match saveFile sf fn with
    | some m => { st with smessage := m }
    | none =>
        { st with fname := fn, smessage := writtenMsg fn, fstate := 1 }

/-- The nested input loop of the `w` command (melt.cpp 546-586), consuming
keystrokes from `keys`. The loop exits after a confirm (which sets
`chr = 27`) or when `chr` itself reads back as 27; on an exhausted input
list the C++ would block forever on `getch()`, so the model stops. -/
def wLoop (sf : Str → Option Str) (st : MeltSt) (fn : Str) :
    List Nat → MeltSt × List Nat
  | [] => (st, [])
  | k :: rest =>
      let chr := sByteVal k
      if chr = 343 ∨ chr = 10 ∨ chr = 13 then (wPromptEnter sf st fn, rest)
      else if chr = 263 ∨ chr = 127 ∨ chr = 8 then wLoop sf st fn.dropLast rest
      else if 32 ≤ chr ∧ chr ≤ 126 then
        wLoop sf st (fn ++ [Char.ofNat (k % 256)]) rest
      else if chr = 27 then (st, rest)
      else wLoop sf st fn rest

/-! ## Command interpreter (melt.cpp 521-613) -/

/-- Message set at melt.cpp 604. -/
def onlyOneMsg : Str := "Only one line left!".toList

/-- Message set at melt.cpp 590. -/
def noWriteMsg : Str := "No write since last change (use Q to override)!".toList

/-- Message built at melt.cpp 608. -/
def unknownMsg (ch : Char) : Str := "Unknown command: ".toList ++ [ch]

/-- The `for (auto ch : c)` loop of `Melt::processCmd` (melt.cpp 526-611),
parametrized by the `replay` function that models the self-call
`processCmd(last_cmd)` of the `.` command (melt.cpp 528-529). Returns
the state, the remaining input keys and whether the loop was aborted by
the `return` of the unknown-command branch (melt.cpp 609), which skips
the final `last_cmd = cmd` store (612). -/
def cmdLoopWith (sf : Str → Option Str)
    (replay : MeltSt → List Nat → MeltSt × List Nat) :
    MeltSt → Str → List Nat → MeltSt × List Nat × Bool
  | st, [], keys => (st, keys, false)
  | st, ch :: rest, keys =>
      if ch = '.' then
        let r := replay st keys
        cmdLoopWith sf replay r.1 rest r.2
      else if ch = 's' then
        let st1 :=
          match saveFile sf st.fname with
          | some m => { st with smessage := m }
          | none => { st with smessage := writtenMsg st.fname, fstate := 1 }
        cmdLoopWith sf replay st1 rest keys
      else if ch = 'w' then
        let st1 := { st with smessage := resizeStr st.mx "Write file: ".toList }
        let r := wLoop sf st1 [] keys
        cmdLoopWith sf replay r.1 rest r.2
      else if ch = 'q' then
        let st1 :=
          if st.fstate = 2 then { st with smessage := noWriteMsg }
          else { st with is_running := false }
        cmdLoopWith sf replay st1 rest keys
      else if ch = 'Q' then
        cmdLoopWith sf replay { st with is_running := false } rest keys
      else if ch = 'd' then
        let st1 :=
          if 0 < st.cy then
            { mvCursor 0 (-1) { st with lines := rmLn st.cy st.lines } with
                fstate := 2 }
          else { st with smessage := onlyOneMsg }
        cmdLoopWith sf replay st1 rest keys
      else
        ({ st with smessage := unknownMsg ch }, keys, true)

/-- Body of `Melt::processCmd` (melt.cpp 521-613) around a given loop:
empty command returns immediately (523-524); otherwise run the loop and,
unless it aborted, store the pending command string `cmd` into
`last_cmd` (612). -/
def procWrap (loop : MeltSt → Str → List Nat → MeltSt × List Nat × Bool)
    (st : MeltSt) (c : Str) (keys : List Nat) : MeltSt × List Nat :=
  if c = [] then (st, keys)
  else
    let r := loop st c keys
    (if r.2.2 then r.1 else { r.1 with last_cmd := r.1.cmd }, r.2.1)

/-- The command loop at replay depth `fuel`: a `.` at depth `f + 1` runs
`processCmd` on the current `last_cmd` at depth `f`; at depth `0` the
replay is a no-op. The C++ recursion is unbounded and need not
terminate (spec section 9 flags this), so the model represents exactly
the executions whose replay nesting stays below `fuel`. -/
def cmdRunDepth (sf : Str → Option Str) :
    Nat → MeltSt → Str → List Nat → MeltSt × List Nat × Bool
  | 0 => cmdLoopWith sf (fun st keys => (st, keys))
  | f + 1 =>
      cmdLoopWith sf (fun st keys => procWrap (cmdRunDepth sf f) st st.last_cmd keys)

/-- Function `Melt::processCmd` (melt.cpp 521-613) with replay depth
bounded by `fuel`. -/
def processCmd (sf : Str → Option Str) (fuel : Nat) (st : MeltSt) (c : Str)
    (keys : List Nat) : MeltSt × List Nat :=
  procWrap (cmdRunDepth sf fuel) st c keys

/-! ## Keyboard event processing (melt.cpp 409-515) -/

/-- Constants for curses special-key codes used by `processEvents`. -/
def KEY_DOWN : Nat := 258
def KEY_UP : Nat := 259
def KEY_LEFT : Nat := 260
def KEY_RIGHT : Nat := 261
def KEY_BACKSPACE : Nat := 263
def KEY_ENTER : Nat := 343

/-- Case `KEY_UP` of `Melt::processEvents` (melt.cpp 415-424). -/
def onKeyUp (st : MeltSt) : MeltSt :=
  if st.edmode = 0 then
    if st.cy = 0 then mvCursor (-(st.cx : Int)) 0 st else mvCursor 0 (-1) st
  else st

/-- Case `KEY_DOWN` of `Melt::processEvents` (melt.cpp 425-434). The C++
compares `cy == lines.size() - 1` on unsigned values; on the empty
document (undefined behaviour in C++) the model's truncated subtraction
takes the first branch. -/
def onKeyDown (st : MeltSt) : MeltSt :=
  if st.edmode = 0 then
    if st.cy = st.lines.length - 1 then
      mvCursor (((st.lines.getD st.cy []).length : Int) - (st.cx : Int)) 0 st
    else mvCursor 0 1 st
  else st

/-- Case `KEY_LEFT` of `Melt::processEvents` (melt.cpp 435-439). -/
def onKeyLeft (st : MeltSt) : MeltSt :=
  if st.edmode = 0 ∧ 0 < st.cx then mvCursor (-1) 0 st else st

/-- Case `KEY_RIGHT` of `Melt::processEvents` (melt.cpp 440-444). -/
def onKeyRight (st : MeltSt) : MeltSt :=
  if st.edmode = 0 ∧ st.cx < (st.lines.getD st.cy []).length then
    mvCursor 1 0 st
  else st

/-- Cases `KEY_BACKSPACE`/127/8 of `Melt::processEvents` (melt.cpp
445-465). -/
def onBackspace (st : MeltSt) : MeltSt :=
  if st.edmode = 0 then
    if st.cx = 0 ∧ 0 < st.cy then
      let prevlen := (st.lines.getD (st.cy - 1) []).length
      let st1 := { st with lines := jnLn (st.cy - 1) st.lines }
      { mvCursor (prevlen : Int) 0 (mvCursor 0 (-1) st1) with fstate := 2 }
    else if 0 < st.cx then
      let st1 := { st with lines := rmCh (st.cx - 1) st.cy st.lines }
      { mvCursor (-1) 0 st1 with fstate := 2 }
    else { st with fstate := 2 }
  else st

/-- Case `KEY_ENTER`/10/13 in edit mode (melt.cpp 470-475). -/
def onEnterEdit (st : MeltSt) : MeltSt :=
  let st1 := { st with lines := spLn st.cx st.cy st.lines }
  { mvCursor (-((st1.lines.getD st1.cy []).length : Int)) 1 st1 with fstate := 2 }

/-- Case `9` (TAB) of `Melt::processEvents` (melt.cpp 483-491):
`for (int i = 0; i < 4; ++i) insCh(cx, cy, ' ');` then move right 4. -/
def onTab (st : MeltSt) : MeltSt :=
  if st.edmode = 0 then
    let L1 := insCh st.cx st.cy ' ' st.lines
    let L2 := insCh st.cx st.cy ' ' L1
    let L3 := insCh st.cx st.cy ' ' L2
    let L4 := insCh st.cx st.cy ' ' L3
    { mvCursor 4 0 { st with lines := L4 } with fstate := 2 }
  else st

/-- Case `27` (ESC) of `Melt::processEvents` (melt.cpp 492-499): the
`cmd.clear()` of line 498 is not under the `else if` (no braces), so it
runs for either mode. -/
def onEsc (st : MeltSt) : MeltSt :=
  let st1 :=
    if st.edmode = 0 then { st with edmode := 1 }
    else if st.edmode = 1 then { st with edmode := 0 }
    else st
  { st1 with cmd := [] }

/-- Default case of `Melt::processEvents` for a printable key in edit
mode (melt.cpp 503-509). -/
def onPrintableEdit (ch : Nat) (st : MeltSt) : MeltSt :=
  let st1 := { st with lines := insCh st.cx st.cy (Char.ofNat ch) st.lines }
  { mvCursor 1 0 st1 with fstate := 2 }

/-- Default case of `Melt::processEvents` (melt.cpp 500-513). -/
def onDefault (ch : Nat) (st : MeltSt) : MeltSt :=
  if 32 ≤ ch ∧ ch ≤ 126 then
    if st.edmode = 0 then onPrintableEdit ch st
    else if st.edmode = 1 then { st with cmd := st.cmd ++ [Char.ofNat ch] }
    else st
  else st

/-- Function `Melt::processEvents` (melt.cpp 409-515): handle one `getch()`
key (the head of `keys`; on an empty list the C++ blocks, so the model
is a no-op). Returns the new state and the input not yet consumed (the
`w` command's nested prompt reads further keys). `fuel` bounds the `.`
replay depth inside `processCmd`. -/
def processEvents (sf : Str → Option Str) (fuel : Nat) (st : MeltSt) :
    List Nat → MeltSt × List Nat
  | [] => (st, [])
  | ch :: rest =>
      if ch = KEY_UP then (onKeyUp st, rest)
      else if ch = KEY_DOWN then (onKeyDown st, rest)
      else if ch = KEY_LEFT then (onKeyLeft st, rest)
      else if ch = KEY_RIGHT then (onKeyRight st, rest)
      else if ch = KEY_BACKSPACE ∨ ch = 127 ∨ ch = 8 then (onBackspace st, rest)
      else if ch = KEY_ENTER ∨ ch = 10 ∨ ch = 13 then
        if st.edmode = 0 then (onEnterEdit st, rest)
        else if st.edmode = 1 then
          let r := processCmd sf fuel st st.cmd rest
          ({ r.1 with cmd := [], edmode := 0 }, r.2)
        else (st, rest)
      else if ch = 9 then (onTab st, rest)
      else if ch = 27 then (onEsc st, rest)
      else (onDefault ch st, rest)

/-- The main loop `Melt::run` (melt.cpp 86-97) restricted to its
state-changing step `processEvents` (rendering touches no modelled
state), driven by a list of pending keystrokes. `efuel` bounds the
number of loop iterations; each iteration consumes at least one key. -/
def steps (sf : Str → Option Str) (cfuel : Nat) :
    Nat → MeltSt → List Nat → MeltSt
  | 0, st, _ => st
  | _ + 1, st, [] => st
  | efuel + 1, st, k :: rest =>
      let r := processEvents sf cfuel st (k :: rest)
      steps sf cfuel efuel r.1 r.2

/-! ## Startup (melt.cpp 144-197, 205-233) -/

/-- The document produced by `Melt::load` (melt.cpp 205-233) from a
successfully read file: its lines, except that an empty file yields the
single empty line (230-231). -/
def loadLines (content : List Str) : List Str :=
  if content = [] then [[]] else content

/-- The state after `Melt::init` (melt.cpp 144-197): one empty line, then
the file-argument handling. `arg` is `argv[1]` (if any), `fexists`
whether the path exists, `content` the lines the stream reads
(`none` = read failure). Curses setup aborts on terminals smaller than
40x14; `mx`/`my` are the queried terminal size, `ax = mx`,
`ay = my - 2`. -/
def initEd (mx my : Nat) (arg : Option Str) (fexists : Bool)
    (content : Option (List Str)) : MeltSt :=
  let base : MeltSt :=
    { lines := [[]], fstate := 0, edmode := 0, fname := [], smessage := [],
      cmd := [], last_cmd := [], cx := 0, cy := 0, ox := 0, oy := 0,
      mx := mx, my := my, ax := mx, ay := my - 2, is_running := true }
  match arg with
  | none => base
  | some fn =>
      if fn = [] then base  -- fback(): fname cleared, fstate 0
      else if ¬ valFn fn then { base with smessage := "Invalid filename!".toList }
      else if ¬ fexists then { base with fname := fn, fstate := 0 }
      else
        match content with
        | some ls => { base with fname := fn, fstate := 1, lines := loadLines ls }
        | none =>
            -- read failure: load resets to one empty line and reports
            { base with smessage :=
                ("Failed to read from ".toList ++ fn ++
                 " due to unknown error!".toList) }

/-! ## Concrete states used in scenario and counterexample theorems -/

/-- A filesystem oracle on which every write succeeds. -/
def noFsErr : Str → Option Str := fun _ => none

/-- A fresh editor on a 40-column, 14-row terminal (the minimum size the
program accepts), as `init` leaves it with no file argument. -/
def baseSt : MeltSt := initEd 40 14 none false none

/-- Editor on the single line "ab". -/
def stOneLine : MeltSt := { baseSt with lines := [['a', 'b']] }

/-- Editor on 13 lines - twelve empty ones and a 50-character last line -
with the cursor on row 11 and the viewport at the origin. -/
def stLongTail : MeltSt :=
  { baseSt with lines := List.replicate 12 ([] : Str) ++ [List.replicate 50 'a'],
                cy := 11 }

/-- Editor on the four lines "a", "b", "c", "d" with the cursor on row 0. -/
def stFour : MeltSt :=
  { baseSt with lines := [['a'], ['b'], ['c'], ['d']] }

/-- Editor in command mode with pending command "x" and a previously
stored command "z". -/
def stPendingX : MeltSt :=
  { baseSt with edmode := 1, cmd := ['x'], last_cmd := ['z'] }

/-- Editor in command mode with the known pending command "q" (clean
file state, so `q` quits) and a previously stored command "z". -/
def stPendingQ : MeltSt :=
  { baseSt with edmode := 1, cmd := ['q'], last_cmd := ['z'] }

/-! # Theorems -/

/-! ## Tab-expansion lemmas -/

theorem visualLengthGo_eq_expandTabsGo (s : Str) :
    ∀ col, visualLengthGo col s = col + (expandTabsGo col s).length := by
  induction s with
  | nil => intro col; simp [visualLengthGo, expandTabsGo]
  | cons c rest ih =>
      intro col
      by_cases hc : c = '\t'
      · simp [visualLengthGo, expandTabsGo, hc, ih]
        omega
      · simp [visualLengthGo, expandTabsGo, hc, ih]
        omega

/-- Every character contributes at least one column of visual width. -/
theorem length_le_visualLengthGo (s : Str) :
    ∀ len, len + s.length ≤ visualLengthGo len s := by
  induction s with
  | nil => intro len; simp [visualLengthGo]
  | cons c rest ih =>
      intro len
      by_cases hc : c = '\t'
      · simp only [visualLengthGo, hc, if_pos]
        have h1 : 1 ≤ tab_width - len % tab_width := by
          have := Nat.mod_lt len (show 0 < tab_width by decide)
          omega
        have := ih (len + (tab_width - len % tab_width))
        simp [List.length_cons]
        omega
      · simp only [visualLengthGo, hc, if_neg, not_false_iff]
        have := ih (len + 1)
        simp [List.length_cons]
        omega

theorem length_le_visualLength (s : Str) : s.length ≤ visualLength s := by
  have := length_le_visualLengthGo s 0
  simpa [visualLength] using this

/-! Cons-step equations for the buffer operations. -/

theorem insLn_zero (l : Str) (L : List Str) : insLn 0 l L = l :: L := by
  simp [insLn]

theorem insLn_succ_cons (y : Nat) (l a : Str) (t : List Str) :
    insLn (y + 1) l (a :: t) = a :: insLn y l t := by
  simp only [insLn, List.length_cons]
  by_cases h : y ≤ t.length
  · rw [if_pos (by omega), if_pos h]; simp [List.take_succ_cons, List.drop_succ_cons]
  · rw [if_neg (by omega), if_neg h]

theorem rmLn_zero_cons (a : Str) (t : List Str) : rmLn 0 (a :: t) = t := by
  simp [rmLn]

theorem rmLn_succ_cons (y : Nat) (a : Str) (t : List Str) :
    rmLn (y + 1) (a :: t) = a :: rmLn y t := by
  simp only [rmLn, List.length_cons]
  by_cases h : y < t.length
  · rw [if_pos (by omega), if_pos h]; simp [List.take_succ_cons, List.drop_succ_cons]
  · rw [if_neg (by omega), if_neg h]

theorem jnLn_zero_cons2 (a b : Str) (t : List Str) :
    jnLn 0 (a :: b :: t) = (a ++ b) :: t := by
  simp [jnLn, rmLn_succ_cons, rmLn_zero_cons]

theorem jnLn_succ_cons (y : Nat) (a : Str) (t : List Str) :
    jnLn (y + 1) (a :: t) = a :: jnLn y t := by
  simp only [jnLn, List.length_cons]
  by_cases h : y < t.length - 1
  · rw [if_pos (by omega), if_pos h]
    simp [List.getD_cons_succ, List.set_cons_succ, rmLn_succ_cons]
  · rw [if_neg (by omega), if_neg h]

theorem spLn_zero_cons (x : Nat) (a : Str) (t : List Str) :
    spLn x 0 (a :: t) =
      if x ≤ a.length then a.take x :: a.drop x :: t else a :: t := by
  by_cases h : x ≤ a.length
  · simp [spLn, h, insLn_succ_cons, insLn_zero]
  · simp [spLn, h]

theorem spLn_succ_cons (x y : Nat) (a : Str) (t : List Str) :
    spLn x (y + 1) (a :: t) = a :: spLn x y t := by
  simp only [spLn, List.length_cons, List.getD_cons_succ, List.set_cons_succ]
  by_cases h : y < t.length ∧ x ≤ (t.getD y []).length
  · rw [if_pos ⟨by omega, h.2⟩, if_pos h]
    simp [insLn_succ_cons]
  · rw [if_neg (by intro hc; exact h ⟨by omega, hc.2⟩), if_neg h]

theorem insCh_zero_cons (x : Nat) (c : Char) (a : Str) (t : List Str) :
    insCh x 0 c (a :: t) =
      if x ≤ a.length then strInsert x c a :: t else a :: t := by
  by_cases h : x ≤ a.length
  · simp [insCh, h]
  · simp [insCh, h]

theorem insCh_succ_cons (x y : Nat) (c : Char) (a : Str) (t : List Str) :
    insCh x (y + 1) c (a :: t) = a :: insCh x y c t := by
  simp only [insCh, List.length_cons, List.getD_cons_succ, List.set_cons_succ]
  by_cases h : y < t.length ∧ x ≤ (t.getD y []).length
  · rw [if_pos ⟨by omega, h.2⟩, if_pos h]
  · rw [if_neg (by intro hc; exact h ⟨by omega, hc.2⟩), if_neg h]

theorem rmCh_zero_cons (x : Nat) (a : Str) (t : List Str) :
    rmCh x 0 (a :: t) =
      if x < a.length then strErase1 x a :: t else a :: t := by
  by_cases h : x < a.length
  · simp [rmCh, h]
  · simp [rmCh, h]

theorem rmCh_succ_cons (x y : Nat) (a : Str) (t : List Str) :
    rmCh x (y + 1) (a :: t) = a :: rmCh x y t := by
  simp only [rmCh, List.length_cons, List.getD_cons_succ, List.set_cons_succ]
  by_cases h : y < t.length ∧ x < (t.getD y []).length
  · rw [if_pos ⟨by omega, h.2⟩, if_pos h]
  · rw [if_neg (by intro hc; exact h ⟨by omega, hc.2⟩), if_neg h]

/-! ## Round-trip lemmas for the buffer operations -/

theorem strInsert_length (x : Nat) (c : Char) (s : Str) (h : x ≤ s.length) :
    (strInsert x c s).length = s.length + 1 := by
  simp [strInsert]
  omega

theorem strErase1_strInsert (x : Nat) (c : Char) (s : Str) (h : x ≤ s.length) :
    strErase1 x (strInsert x c s) = s := by
  have hlen : (s.take x).length = x := by simp; omega
  have hcons : s.take x ++ c :: s.drop x = (s.take x ++ [c]) ++ s.drop x := by simp
  calc strErase1 x (strInsert x c s)
      = (s.take x ++ c :: s.drop x).take x ++ (s.take x ++ c :: s.drop x).drop (x + 1) := rfl
    _ = s.take x ++ s.drop x := by
        rw [List.take_append_of_le_length (by omega), hcons,
          List.drop_left' (by simp [hlen]), List.take_take, Nat.min_self]
    _ = s := List.take_append_drop x s

/-! ## Claim C10 -/

/-- C10: for every string `s`, `visualLength s` equals the length of
`expandTabs s`; the two tab-expansion utilities agree, so the
visual-length computation never drifts from the actual expanded text. -/
theorem c10_visualLength_eq_length_expandTabs (s : Str) :
    visualLength s = (expandTabs s).length := by
  simpa [visualLength, expandTabs] using visualLengthGo_eq_expandTabsGo s 0

/-! ## Claim C5 -/

/-- C5: for every document, every row `y < lineCount` and every column
`x ≤ length (line y)`, `splitLine` then `joinLine` at the same row
restores the original document. -/
theorem c5_split_join_roundtrip (L : List Str) (x y : Nat)
    (hy : y < L.length) (hx : x ≤ (L.getD y []).length) :
    jnLn y (spLn x y L) = L := by
  induction y generalizing L with
  | zero =>
      match L, hy with
      | a :: t, _ =>
          simp only [List.getD_cons_zero] at hx
          rw [spLn_zero_cons, if_pos hx, jnLn_zero_cons2, List.take_append_drop]
  | succ y ih =>
      match L, hy with
      | a :: t, hy =>
          simp only [List.getD_cons_succ] at hx
          rw [spLn_succ_cons, jnLn_succ_cons, ih t (by simpa using hy) hx]

/-- Witness for C5 at a concrete input. -/
theorem c5_split_join_roundtrip_witness :
    0 < ([['a', 'b', 'c'], ['d']] : List Str).length ∧
    2 ≤ (([['a', 'b', 'c'], ['d']] : List Str).getD 0 []).length ∧
    jnLn 0 (spLn 2 0 [['a', 'b', 'c'], ['d']]) = [['a', 'b', 'c'], ['d']] :=
  ⟨by decide, by decide, c5_split_join_roundtrip _ 2 0 (by decide) (by decide)⟩

/-! ## Claim C6 -/

/-- C6: for every document, every valid position (`y < lineCount`,
`x ≤ length (line y)`) and every character, `insertChar` then
`deleteChar` at the same position restores the original document. -/
theorem c6_insert_delete_roundtrip (L : List Str) (x y : Nat) (c : Char)
    (hy : y < L.length) (hx : x ≤ (L.getD y []).length) :
    rmCh x y (insCh x y c L) = L := by
  induction y generalizing L with
  | zero =>
      match L, hy with
      | a :: t, _ =>
          simp only [List.getD_cons_zero] at hx
          rw [insCh_zero_cons, if_pos hx, rmCh_zero_cons,
            if_pos (by rw [strInsert_length x c a hx]; omega),
            strErase1_strInsert x c a hx]
  | succ y ih =>
      match L, hy with
      | a :: t, hy =>
          simp only [List.getD_cons_succ] at hx
          rw [insCh_succ_cons, rmCh_succ_cons, ih t (by simpa using hy) hx]

/-- Witness for C6 at a concrete input. -/
theorem c6_insert_delete_roundtrip_witness :
    0 < ([['a', 'b']] : List Str).length ∧
    1 ≤ (([['a', 'b']] : List Str).getD 0 []).length ∧
    rmCh 1 0 (insCh 1 0 'z' [['a', 'b']]) = [['a', 'b']] :=
  ⟨by decide, by decide, c6_insert_delete_roundtrip _ 1 0 'z' (by decide) (by decide)⟩

/-! ## Claim C9 -/

theorem sCharVal_ascii {c : Char} (h : c.toNat < 128) : sCharVal c = c.toNat := by
  have h256 : c.toNat % 256 = c.toNat := Nat.mod_eq_of_lt (by omega)
  simp [sCharVal, h256, h]

/-- C9: on ASCII strings (the spec's section 1 limits the editor to
ASCII) the validator accepts a filename exactly when the specification's
conditions hold; in particular "CON.txt" is rejected and "notes.txt" is
accepted. -/
theorem c9_filename_validation
    (fn : Str) (hascii : ∀ c ∈ fn, c.toNat < 128) :
    (valFn fn = true ↔ validSpec fn) ∧
    valFn "CON.txt".toList = false ∧ valFn "notes.txt".toList = true := by
  refine ⟨?_, by decide, by decide⟩
  rcases fn with _ | ⟨a, t⟩
  · simp [valFn, validSpec]
  · have hne : (a :: t : Str) ≠ [] := by simp
    obtain ⟨z, hz⟩ : ∃ z, (a :: t).getLast? = some z :=
      ⟨(a :: t).getLast hne, List.getLast?_eq_getLast _ hne⟩
    have hlastD : (a :: t).getLastD ' ' = z := by
      rw [List.getLastD_eq_getLast?, hz]; rfl
    have hchar : ∀ c ∈ a :: t,
        ((sCharVal c < 32 ∨ invalidChars.contains c) ↔
          ¬(32 ≤ c.toNat ∧ c ∉ invalidChars)) := by
      intro c hc
      rw [sCharVal_ascii (hascii c hc)]
      constructor
      · rintro (h | h)
        · intro hcon; omega
        · intro hcon; exact hcon.2 (List.elem_iff.mp h)
      · intro h
        push_neg at h
        by_cases h32 : 32 ≤ c.toNat
        · exact Or.inr (List.elem_iff.mpr (h h32))
        · exact Or.inl (by omega)
    unfold valFn validSpec
    rw [if_neg hne]
    split_ifs with h1 h2 h3
    · simp only [false_iff]
      intro hR
      have hlen := hR.2.1
      simp only [MAX_FN_LEN] at h1
      omega
    · simp only [false_iff]
      intro hR
      obtain ⟨-, -, hh, hl1, hl2, -, -⟩ := hR
      simp only [List.headD_cons, hlastD] at h2
      rcases h2 with h | h | h
      · exact hh (by simp [h])
      · exact hl1 (by rw [hz, h])
      · exact hl2 (by rw [hz, h])
    · simp only [false_iff]
      intro hR
      obtain ⟨-, -, -, -, -, hall, -⟩ := hR
      rw [List.any_eq_true] at h3
      obtain ⟨c, hc, hp⟩ := h3
      simp only [decide_eq_true_eq] at hp
      exact (hchar c hc).mp hp (hall c hc)
    · simp only [decide_eq_true_eq, List.elem_iff]
      push_neg at h2
      obtain ⟨hh, hl1, hl2⟩ := h2
      have hall : ∀ c ∈ a :: t, 32 ≤ c.toNat ∧ c ∉ invalidChars := by
        intro c hc
        by_contra hcon
        have : ((a :: t).any fun c =>
            decide (sCharVal c < 32 ∨ List.contains invalidChars c = true)) = true := by
          rw [List.any_eq_true]
          exact ⟨c, hc, by simp only [decide_eq_true_eq]; exact (hchar c hc).mpr hcon⟩
        exact h3 this
      constructor
      · intro hres
        refine ⟨hne, by simp only [MAX_FN_LEN] at h1; omega, ?_, ?_, ?_, hall, hres⟩
        · intro h
          rw [List.head?_cons, Option.some.injEq] at h
          rw [List.headD_cons] at hh
          exact hh h
        · intro h
          rw [hz, Option.some.injEq] at h
          exact hl1 (by rw [hlastD, h])
        · intro h
          rw [hz, Option.some.injEq] at h
          exact hl2 (by rw [hlastD, h])
      · intro hR
        exact hR.2.2.2.2.2.2

/-- Witness for C9 at a concrete input. -/
theorem c9_filename_validation_witness :
    (∀ c ∈ "notes.txt".toList, c.toNat < 128) ∧
    ((valFn "notes.txt".toList = true ↔ validSpec "notes.txt".toList) ∧
     valFn "CON.txt".toList = false ∧ valFn "notes.txt".toList = true) :=
  ⟨by decide, c9_filename_validation "notes.txt".toList (by decide)⟩

/-! ## Preservation lemmas: scrolling touches only the viewport origin -/

theorem scrollUp_only_oy (d : Nat) (st : MeltSt) :
    (scrollUp d st) = { st with oy := (scrollUp d st).oy } := by
  unfold scrollUp; split <;> rfl

theorem scrollDown_only_oy (d : Nat) (st : MeltSt) :
    (scrollDown d st) = { st with oy := (scrollDown d st).oy } := by
  unfold scrollDown; split <;> rfl

theorem scrollLeft_only_ox (d : Nat) (st : MeltSt) :
    (scrollLeft d st) = { st with ox := (scrollLeft d st).ox } := by
  unfold scrollLeft; split <;> rfl

theorem scrollRight_only_ox (d : Nat) (st : MeltSt) :
    (scrollRight d st) = { st with ox := (scrollRight d st).ox } := by
  unfold scrollRight; split <;> (try split) <;> rfl

theorem scrollToFitH_shape (st : MeltSt) :
    ∃ a, scrollToFitH st = { st with ox := a } := by
  unfold scrollToFitH scrollLeft scrollRight
  repeat' split
  all_goals exact ⟨_, rfl⟩

theorem scrollToFitV_shape (st : MeltSt) :
    ∃ b, scrollToFitV st = { st with oy := b } := by
  unfold scrollToFitV scrollUp scrollDown
  repeat' split
  all_goals exact ⟨_, rfl⟩

theorem scrollToFit_shape (st : MeltSt) :
    ∃ a b, scrollToFit st = { st with ox := a, oy := b } := by
  obtain ⟨a, ha⟩ := scrollToFitH_shape st
  obtain ⟨b, hb⟩ := scrollToFitV_shape { st with ox := a }
  exact ⟨a, b, by rw [scrollToFit, ha, hb]⟩

theorem scrollToFit_lines (st : MeltSt) : (scrollToFit st).lines = st.lines := by
  obtain ⟨a, b, h⟩ := scrollToFit_shape st; rw [h]

theorem scrollToFit_cx (st : MeltSt) : (scrollToFit st).cx = st.cx := by
  obtain ⟨a, b, h⟩ := scrollToFit_shape st; rw [h]

theorem scrollToFit_cy (st : MeltSt) : (scrollToFit st).cy = st.cy := by
  obtain ⟨a, b, h⟩ := scrollToFit_shape st; rw [h]

theorem scrollToFit_ax (st : MeltSt) : (scrollToFit st).ax = st.ax := by
  obtain ⟨a, b, h⟩ := scrollToFit_shape st; rw [h]

theorem scrollToFit_ay (st : MeltSt) : (scrollToFit st).ay = st.ay := by
  obtain ⟨a, b, h⟩ := scrollToFit_shape st; rw [h]

theorem mvCursor_shape (xd yd : Int) (st : MeltSt) :
    ∃ a b c d, mvCursor xd yd st = { st with cx := a, cy := b, ox := c, oy := d } := by
  have key : ∀ u v : Nat, ∃ a b c d,
      scrollToFit { st with cx := u, cy := v } =
        { st with cx := a, cy := b, ox := c, oy := d } := by
    intro u v
    obtain ⟨a, b, h⟩ := scrollToFit_shape { st with cx := u, cy := v }
    exact ⟨u, v, a, b, h⟩
  unfold mvCursor
  exact key _ _

theorem mvCursor_lines (xd yd : Int) (st : MeltSt) :
    (mvCursor xd yd st).lines = st.lines := by
  obtain ⟨a, b, c, d, h⟩ := mvCursor_shape xd yd st; rw [h]

theorem mvCursor_cmd (xd yd : Int) (st : MeltSt) :
    (mvCursor xd yd st).cmd = st.cmd := by
  obtain ⟨a, b, c, d, h⟩ := mvCursor_shape xd yd st; rw [h]

theorem mvCursor_last_cmd (xd yd : Int) (st : MeltSt) :
    (mvCursor xd yd st).last_cmd = st.last_cmd := by
  obtain ⟨a, b, c, d, h⟩ := mvCursor_shape xd yd st; rw [h]

theorem mvCursor_ax (xd yd : Int) (st : MeltSt) :
    (mvCursor xd yd st).ax = st.ax := by
  obtain ⟨a, b, c, d, h⟩ := mvCursor_shape xd yd st; rw [h]

theorem mvCursor_ay (xd yd : Int) (st : MeltSt) :
    (mvCursor xd yd st).ay = st.ay := by
  obtain ⟨a, b, c, d, h⟩ := mvCursor_shape xd yd st; rw [h]

/-! ## Claim C2 -/

/-- Shared helper: `mvCursor` always leaves a valid cursor on a non-empty
document. -/
theorem mvCursor_valid (st : MeltSt) (xd yd : Int)
    (h : 1 ≤ st.lines.length) :
    (mvCursor xd yd st).cy < (mvCursor xd yd st).lines.length ∧
    (mvCursor xd yd st).cx ≤
      ((mvCursor xd yd st).lines.getD (mvCursor xd yd st).cy []).length := by
  simp only [mvCursor, scrollToFit_cx, scrollToFit_cy, scrollToFit_lines, lineAt]
  split_ifs <;> simp_all <;> omega

/-- C2: for every document with at least one line, every starting cursor
position and every displacement, after `mvCursor` the cursor satisfies
`row < lineCount` and `col ≤ length (line row)`. -/
theorem c2_cursor_valid_after_mvCursor (st : MeltSt) (xd yd : Int)
    (h : 1 ≤ st.lines.length) :
    (mvCursor xd yd st).cy < (mvCursor xd yd st).lines.length ∧
    (mvCursor xd yd st).cx ≤
      ((mvCursor xd yd st).lines.getD (mvCursor xd yd st).cy []).length :=
  mvCursor_valid st xd yd h

/-- Witness for C2 at a concrete input. -/
theorem c2_cursor_valid_after_mvCursor_witness :
    1 ≤ stOneLine.lines.length ∧
    ((mvCursor 7 (-3) stOneLine).cy < (mvCursor 7 (-3) stOneLine).lines.length ∧
     (mvCursor 7 (-3) stOneLine).cx ≤
       ((mvCursor 7 (-3) stOneLine).lines.getD (mvCursor 7 (-3) stOneLine).cy []).length) :=
  ⟨by decide, c2_cursor_valid_after_mvCursor stOneLine 7 (-3) (by decide)⟩

/-! ## Claim C8 -/

/-- C8 counterexample: on the single line "ab" (cursor on the last row,
column 0), `mvCursor 5 0` resolves a column of 5 > 2; the claim says the
column is then left as-is or clamped to the end of the line, but the
code sets it to 0 (and keeps the row). -/
theorem c8_overflow_counterexample :
    (mvCursor 5 0 stOneLine).cx ≠ (stOneLine.lines.getD stOneLine.cy []).length ∧
    (mvCursor 5 0 stOneLine).cx ≠ stOneLine.cx + 5 ∧
    (mvCursor 5 0 stOneLine).cx = 0 ∧ (mvCursor 5 0 stOneLine).cy = stOneLine.cy := by
  decide

/-- C8 amended: in `mvCursor`, when the resolved column exceeds the length
of the target row, the column is set to 0 in both cases: the cursor
wraps to column 0 of the next row if the row is not the last one, and
moves to column 0 of the same row if it is (it is not left as-is and not
clamped to the end of the line). -/
theorem c8_overflow_column (st : MeltSt) (xd : Int)
    (h1 : 1 ≤ st.lines.length) (h2 : st.cy < st.lines.length)
    (h3 : ((st.lines.getD st.cy []).length : Int) < (st.cx : Int) + xd) :
    (st.cy + 1 < st.lines.length →
      (mvCursor xd 0 st).cx = 0 ∧ (mvCursor xd 0 st).cy = st.cy + 1) ∧
    (st.cy + 1 = st.lines.length →
      (mvCursor xd 0 st).cx = 0 ∧ (mvCursor xd 0 st).cy = st.cy) := by
  simp only [mvCursor, scrollToFit_cx, scrollToFit_cy, lineAt]
  split_ifs <;> simp_all <;> omega

/-- Witness for C8 at a concrete input (four lines, cursor on row 0,
column overflow wraps to the next row). -/
theorem c8_overflow_column_witness :
    (1 ≤ stFour.lines.length ∧ stFour.cy < stFour.lines.length ∧
     ((stFour.lines.getD stFour.cy []).length : Int) < (stFour.cx : Int) + 3) ∧
    ((stFour.cy + 1 < stFour.lines.length →
       (mvCursor 3 0 stFour).cx = 0 ∧ (mvCursor 3 0 stFour).cy = stFour.cy + 1) ∧
     (stFour.cy + 1 = stFour.lines.length →
       (mvCursor 3 0 stFour).cx = 0 ∧ (mvCursor 3 0 stFour).cy = stFour.cy)) :=
  ⟨⟨by decide, by decide, by decide⟩,
   c8_overflow_column stFour 3 (by decide) (by decide) (by decide)⟩

/-! ## Claim C3 -/

/-- C3 counterexample: on 13 lines whose last line is the only long one,
with the cursor on row 11 and the viewport at the origin (40 columns,
12 rows), `mvCursor 50 1` lands on `(50, 12)`; the rightward auto-scroll
is capped at the longest line visible before the move (all empty), so
the cursor ends up outside the viewport horizontally, contradicting the
claimed invariant. -/
theorem c3_viewport_counterexample :
    ¬ ((mvCursor 50 1 stLongTail).ox ≤ (mvCursor 50 1 stLongTail).cx ∧
       (mvCursor 50 1 stLongTail).cx <
         (mvCursor 50 1 stLongTail).ox + (mvCursor 50 1 stLongTail).ax) := by
  decide

theorem le_foldlMax_init (f : Str → Nat) (l : List Str) :
    ∀ b, b ≤ l.foldl (fun m y => max m (f y)) b := by
  induction l with
  | nil => intro b; exact le_rfl
  | cons a t ih =>
      intro b
      exact le_trans (Nat.le_max_left b (f a)) (ih (max b (f a)))

theorem mem_le_foldlMax (f : Str → Nat) (l : List Str) (x : Str) (hx : x ∈ l) :
    ∀ b, f x ≤ l.foldl (fun m y => max m (f y)) b := by
  induction l with
  | nil => cases hx
  | cons a t ih =>
      intro b
      simp only [List.foldl_cons]
      rcases List.mem_cons.mp hx with h | h
      · subst h
        exact le_trans (Nat.le_max_right b (f x)) (le_foldlMax_init f t _)
      · exact ih h (max b (f a))

theorem getD_mem_window (L : List Str) (oy ay r : Nat)
    (h1 : oy ≤ r) (h2 : r < oy + ay) (h3 : r < L.length) :
    L.getD r [] ∈ (L.drop oy).take ay := by
  have hidx : r - oy < ((L.drop oy).take ay).length := by
    simp [List.length_take, List.length_drop]; omega
  have hval : ((L.drop oy).take ay)[r - oy] = L.getD r [] := by
    rw [List.getElem_take, List.getElem_drop, List.getD_eq_getElem L [] (by omega)]
    congr 1
    omega
  rw [← hval]
  exact List.getElem_mem _

theorem visualLength_le_maxVisLen (L : List Str) (oy ay r : Nat)
    (h1 : oy ≤ r) (h2 : r < oy + ay) (h3 : r < L.length) :
    visualLength (L.getD r []) ≤ maxVisLen L oy ay :=
  mem_le_foldlMax visualLength _ _ (getD_mem_window L oy ay r h1 h2 h3) 0

theorem scrollToFitV_spec (st : MeltSt)
    (hcy : st.cy < st.lines.length) (hay : 1 ≤ st.ay) :
    (scrollToFitV st).oy ≤ st.cy ∧ st.cy < (scrollToFitV st).oy + st.ay := by
  unfold scrollToFitV scrollUp scrollDown
  split_ifs <;> simp_all <;> omega

theorem scrollToFitH_spec (st : MeltSt)
    (hcy : st.cy < st.lines.length)
    (hcx : st.cx ≤ (st.lines.getD st.cy []).length)
    (hax : 2 ≤ st.ax) (hay : 1 ≤ st.ay)
    (hvis1 : st.oy ≤ st.cy) (hvis2 : st.cy < st.oy + st.ay) :
    (scrollToFitH st).ox ≤ st.cx ∧ st.cx < (scrollToFitH st).ox + st.ax := by
  have hmax : st.cx ≤ maxVisLen st.lines st.oy st.ay :=
    le_trans hcx (le_trans (length_le_visualLength _)
      (visualLength_le_maxVisLen st.lines st.oy st.ay st.cy hvis1 hvis2 hcy))
  unfold scrollToFitH scrollLeft scrollRight
  split_ifs <;> simp_all <;> omega

theorem scrollToFit_spec (st : MeltSt)
    (hcy : st.cy < st.lines.length)
    (hcx : st.cx ≤ (st.lines.getD st.cy []).length)
    (hax : 2 ≤ st.ax) (hay : 1 ≤ st.ay) :
    ((scrollToFit st).oy ≤ st.cy ∧ st.cy < (scrollToFit st).oy + st.ay) ∧
    (st.oy ≤ st.cy → st.cy < st.oy + st.ay →
      (scrollToFit st).ox ≤ st.cx ∧ st.cx < (scrollToFit st).ox + st.ax) := by
  obtain ⟨a, ha⟩ := scrollToFitH_shape st
  constructor
  · have hv := scrollToFitV_spec (scrollToFitH st)
      (by rw [ha]; exact hcy) (by rw [ha]; exact hay)
    rw [ha] at hv
    rw [scrollToFit, ha]
    simpa using hv
  · intro h1 h2
    have hh := scrollToFitH_spec st hcy hcx hax hay h1 h2
    obtain ⟨b, hb⟩ := scrollToFitV_shape (scrollToFitH st)
    rw [scrollToFit, hb, ha]
    simpa [ha] using hh

/-- C3 amended: after every cursor move the cursor lies within the
viewport vertically; it also lies within it horizontally provided the
destination row is inside the pre-move visible row window. (When the
destination row is outside that window, the rightward scroll is capped
by the longest pre-move-visible line - melt.cpp 393-402 - and the cursor
can be left right of the viewport, see the counterexample.) -/
theorem c3_after_move (st : MeltSt) (xd yd : Int)
    (hl : 1 ≤ st.lines.length) (hax : 2 ≤ st.ax) (hay : 1 ≤ st.ay) :
    ((mvCursor xd yd st).oy ≤ (mvCursor xd yd st).cy ∧
     (mvCursor xd yd st).cy < (mvCursor xd yd st).oy + (mvCursor xd yd st).ay) ∧
    (st.oy ≤ (mvCursor xd yd st).cy → (mvCursor xd yd st).cy < st.oy + st.ay →
     (mvCursor xd yd st).ox ≤ (mvCursor xd yd st).cx ∧
     (mvCursor xd yd st).cx < (mvCursor xd yd st).ox + (mvCursor xd yd st).ax) := by
  have hv := mvCursor_valid st xd yd hl
  rw [mvCursor_lines] at hv
  obtain ⟨u, v, hM⟩ : ∃ u v, mvCursor xd yd st = scrollToFit { st with cx := u, cy := v } := by
    unfold mvCursor; exact ⟨_, _, rfl⟩
  rw [hM, scrollToFit_cx, scrollToFit_cy] at hv ⊢
  rw [scrollToFit_ax, scrollToFit_ay]
  simp only at hv ⊢
  have hS := scrollToFit_spec { st with cx := u, cy := v }
    (by exact hv.1) (by exact hv.2) (by exact hax) (by exact hay)
  simp only [scrollToFit_cx, scrollToFit_cy] at hS
  exact hS

/-- Witness for C3 (amended) at a concrete input. -/
theorem c3_after_move_witness :
    (1 ≤ stOneLine.lines.length ∧ 2 ≤ stOneLine.ax ∧ 1 ≤ stOneLine.ay) ∧
    (((mvCursor 1 0 stOneLine).oy ≤ (mvCursor 1 0 stOneLine).cy ∧
      (mvCursor 1 0 stOneLine).cy <
        (mvCursor 1 0 stOneLine).oy + (mvCursor 1 0 stOneLine).ay) ∧
     (stOneLine.oy ≤ (mvCursor 1 0 stOneLine).cy →
      (mvCursor 1 0 stOneLine).cy < stOneLine.oy + stOneLine.ay →
      (mvCursor 1 0 stOneLine).ox ≤ (mvCursor 1 0 stOneLine).cx ∧
      (mvCursor 1 0 stOneLine).cx <
        (mvCursor 1 0 stOneLine).ox + (mvCursor 1 0 stOneLine).ax)) :=
  ⟨⟨by decide, by decide, by decide⟩,
   c3_after_move stOneLine 1 0 (by decide) (by decide) (by decide)⟩

/-! ## Preservation lemmas for the buffer, prompt and command loop -/

theorem insCh_length (x y : Nat) (c : Char) (L : List Str) :
    (insCh x y c L).length = L.length := by
  unfold insCh; split <;> simp

theorem rmCh_length (x y : Nat) (L : List Str) :
    (rmCh x y L).length = L.length := by
  unfold rmCh; split <;> simp

theorem insLn_length (y : Nat) (l : Str) (L : List Str) :
    (insLn y l L).length = if y ≤ L.length then L.length + 1 else L.length := by
  unfold insLn
  split
  · simp; omega
  · simp_all

theorem rmLn_length (y : Nat) (L : List Str) :
    (rmLn y L).length = if y < L.length then L.length - 1 else L.length := by
  unfold rmLn
  split
  · simp; omega
  · simp_all

theorem spLn_length_ge (x y : Nat) (L : List Str) :
    L.length ≤ (spLn x y L).length := by
  unfold spLn
  split
  · rw [insLn_length]
    split <;> simp <;> omega
  · exact le_rfl

theorem jnLn_length_ge (y : Nat) (L : List Str) (h : 1 ≤ L.length) :
    1 ≤ (jnLn y L).length := by
  unfold jnLn
  split
  · rw [rmLn_length]
    split <;> simp_all <;> omega
  · exact h

theorem rmLn_length_ge (y : Nat) (L : List Str) (hy : 0 < y) (h : 1 ≤ L.length) :
    1 ≤ (rmLn y L).length := by
  rw [rmLn_length]; split <;> omega

theorem wPromptEnter_shape (sf : Str → Option Str) (st : MeltSt) (fn : Str) :
    ∃ f m g, wPromptEnter sf st fn = { st with fname := f, smessage := m, fstate := g } := by
  unfold wPromptEnter
  repeat' split
  all_goals exact ⟨_, _, _, rfl⟩

theorem wLoop_shape (sf : Str → Option Str) (st : MeltSt) :
    ∀ (keys : List Nat) (fn : Str),
      ∃ f m g, (wLoop sf st fn keys).1 = { st with fname := f, smessage := m, fstate := g } := by
  intro keys
  induction keys with
  | nil => intro fn; exact ⟨st.fname, st.smessage, st.fstate, rfl⟩
  | cons k rest ih =>
      intro fn
      unfold wLoop
      dsimp only
      split_ifs
      · exact wPromptEnter_shape sf st fn
      · exact ih _
      · exact ih _
      · exact ⟨st.fname, st.smessage, st.fstate, rfl⟩
      · exact ih _

theorem procWrap_fst (loop : MeltSt → Str → List Nat → MeltSt × List Nat × Bool)
    (st : MeltSt) (c : Str) (keys : List Nat) :
    (procWrap loop st c keys).1 = st ∨
    (procWrap loop st c keys).1 = (loop st c keys).1 ∨
    (procWrap loop st c keys).1 =
      { (loop st c keys).1 with last_cmd := (loop st c keys).1.cmd } := by
  unfold procWrap
  split_ifs with hc
  · left; rfl
  · dsimp only
    split
    · right; left; rfl
    · right; right; rfl

theorem cmdLoopWith_lines_ge (sf : Str → Option Str)
    (replay : MeltSt → List Nat → MeltSt × List Nat)
    (hrep : ∀ st keys, 1 ≤ st.lines.length → 1 ≤ (replay st keys).1.lines.length) :
    ∀ (c : Str) (st : MeltSt) (keys : List Nat),
      1 ≤ st.lines.length → 1 ≤ (cmdLoopWith sf replay st c keys).1.lines.length := by
  intro c
  induction c with
  | nil => intro st keys h; exact h
  | cons ch rest ih =>
      intro st keys h
      unfold cmdLoopWith
      dsimp only
      split_ifs <;>
        first
          | exact h
          | exact ih _ _ (hrep st keys h)
          | exact ih _ _ h
          | (apply ih; split <;> exact h)
          | (apply ih
             obtain ⟨f, m, g, hw⟩ := wLoop_shape sf
               { st with smessage := resizeStr st.mx "Write file: ".toList } keys []
             rw [hw]; exact h)
          | (apply ih
             show 1 ≤ (mvCursor 0 (-1)
               { st with lines := rmLn st.cy st.lines }).lines.length
             rw [mvCursor_lines]
             exact rmLn_length_ge st.cy st.lines (by assumption) h)

theorem cmdRunDepth_lines_ge (sf : Str → Option Str) :
    ∀ (fuel : Nat) (c : Str) (st : MeltSt) (keys : List Nat),
      1 ≤ st.lines.length → 1 ≤ (cmdRunDepth sf fuel st c keys).1.lines.length := by
  intro fuel
  induction fuel with
  | zero =>
      intro c st keys h
      exact cmdLoopWith_lines_ge sf _ (fun st keys h => h) c st keys h
  | succ f ih =>
      intro c st keys h
      refine cmdLoopWith_lines_ge sf _ ?_ c st keys h
      intro st1 keys1 h1
      rcases procWrap_fst (cmdRunDepth sf f) st1 st1.last_cmd keys1 with hp | hp | hp <;> rw [hp]
      · exact h1
      · exact ih _ _ _ h1
      · exact ih _ _ _ h1

theorem processCmd_lines_ge (sf : Str → Option Str) (fuel : Nat) (st : MeltSt)
    (c : Str) (keys : List Nat) (h : 1 ≤ st.lines.length) :
    1 ≤ (processCmd sf fuel st c keys).1.lines.length := by
  unfold processCmd
  rcases procWrap_fst (cmdRunDepth sf fuel) st c keys with hp | hp | hp <;> rw [hp]
  · exact h
  · exact cmdRunDepth_lines_ge sf fuel c st keys h
  · exact cmdRunDepth_lines_ge sf fuel c st keys h

theorem onKeyUp_lines (st : MeltSt) : (onKeyUp st).lines = st.lines := by
  unfold onKeyUp; split_ifs <;> simp [mvCursor_lines]

theorem onKeyDown_lines (st : MeltSt) : (onKeyDown st).lines = st.lines := by
  unfold onKeyDown; split_ifs <;> simp [mvCursor_lines]

theorem onKeyLeft_lines (st : MeltSt) : (onKeyLeft st).lines = st.lines := by
  unfold onKeyLeft; split_ifs <;> simp [mvCursor_lines]

theorem onKeyRight_lines (st : MeltSt) : (onKeyRight st).lines = st.lines := by
  unfold onKeyRight; split_ifs <;> simp [mvCursor_lines]

theorem onBackspace_lines_ge (st : MeltSt) (h : 1 ≤ st.lines.length) :
    1 ≤ (onBackspace st).lines.length := by
  unfold onBackspace
  dsimp only
  split_ifs <;> (try simp only [mvCursor_lines, rmCh_length]) <;>
    first
      | exact h
      | exact jnLn_length_ge _ _ h

theorem onEnterEdit_lines_ge (st : MeltSt) (h : 1 ≤ st.lines.length) :
    1 ≤ (onEnterEdit st).lines.length := by
  unfold onEnterEdit
  dsimp only
  simp only [mvCursor_lines]
  exact le_trans h (spLn_length_ge _ _ _)

theorem onTab_lines (st : MeltSt) : (onTab st).lines.length = st.lines.length := by
  unfold onTab
  dsimp only
  split_ifs <;> simp [mvCursor_lines, insCh_length]

theorem onEsc_lines (st : MeltSt) : (onEsc st).lines = st.lines := by
  unfold onEsc; dsimp only; split_ifs <;> rfl

theorem onDefault_lines (ch : Nat) (st : MeltSt) :
    (onDefault ch st).lines.length = st.lines.length := by
  unfold onDefault onPrintableEdit
  dsimp only
  split_ifs <;> simp [mvCursor_lines, insCh_length]

theorem processEvents_lines_ge (sf : Str → Option Str) (fuel : Nat)
    (st : MeltSt) (keys : List Nat) (h : 1 ≤ st.lines.length) :
    1 ≤ (processEvents sf fuel st keys).1.lines.length := by
  cases keys with
  | nil => exact h
  | cons k rest =>
      unfold processEvents
      dsimp only
      split_ifs <;>
        first
          | exact h
          | (rw [onKeyUp_lines]; exact h)
          | (rw [onKeyDown_lines]; exact h)
          | (rw [onKeyLeft_lines]; exact h)
          | (rw [onKeyRight_lines]; exact h)
          | exact onBackspace_lines_ge st h
          | exact onEnterEdit_lines_ge st h
          | (rw [onTab_lines]; exact h)
          | (rw [onEsc_lines]; exact h)
          | (rw [onDefault_lines]; exact h)
          | exact processCmd_lines_ge sf fuel st st.cmd rest h

theorem steps_lines_ge (sf : Str → Option Str) (cfuel : Nat) :
    ∀ (efuel : Nat) (st : MeltSt) (keys : List Nat),
      1 ≤ st.lines.length → 1 ≤ (steps sf cfuel efuel st keys).lines.length := by
  intro efuel
  induction efuel with
  | zero => intro st keys h; exact h
  | succ ef ih =>
      intro st keys h
      cases keys with
      | nil => exact h
      | cons k rest =>
          unfold steps
          dsimp only
          exact ih _ _ (processEvents_lines_ge sf cfuel st (k :: rest) h)

theorem initEd_lines_ge (mx my : Nat) (arg : Option Str) (fexists : Bool)
    (content : Option (List Str)) :
    1 ≤ (initEd mx my arg fexists content).lines.length := by
  unfold initEd loadLines
  dsimp only
  repeat' split
  all_goals simp_all [Nat.one_le_iff_ne_zero]

theorem cmdLoopWith_cmd (sf : Str → Option Str)
    (replay : MeltSt → List Nat → MeltSt × List Nat)
    (hrep : ∀ st keys, (replay st keys).1.cmd = st.cmd) :
    ∀ (c : Str) (st : MeltSt) (keys : List Nat),
      (cmdLoopWith sf replay st c keys).1.cmd = st.cmd := by
  intro c
  induction c with
  | nil => intro st keys; rfl
  | cons ch rest ih =>
      intro st keys
      unfold cmdLoopWith
      dsimp only
      split_ifs <;>
        first
          | rfl
          | (rw [ih]; exact hrep st keys)
          | (rw [ih]; done)
          | (rw [ih]; split <;> rfl)
          | (rw [ih]
             obtain ⟨f, m, g, hw⟩ := wLoop_shape sf
               { st with smessage := resizeStr st.mx "Write file: ".toList } keys []
             rw [hw])
          | (rw [ih]
             show (mvCursor 0 (-1) { st with lines := rmLn st.cy st.lines }).cmd = st.cmd
             rw [mvCursor_cmd])

theorem cmdRunDepth_cmd (sf : Str → Option Str) :
    ∀ (fuel : Nat) (c : Str) (st : MeltSt) (keys : List Nat),
      (cmdRunDepth sf fuel st c keys).1.cmd = st.cmd := by
  intro fuel
  induction fuel with
  | zero =>
      intro c st keys
      exact cmdLoopWith_cmd sf _ (fun _ _ => rfl) c st keys
  | succ f ih =>
      intro c st keys
      refine cmdLoopWith_cmd sf _ ?_ c st keys
      intro st1 keys1
      rcases procWrap_fst (cmdRunDepth sf f) st1 st1.last_cmd keys1 with hp | hp | hp <;> rw [hp]
      · exact ih _ _ _
      · exact ih _ _ _

theorem cmdLoopWith_no_abort (sf : Str → Option Str)
    (replay : MeltSt → List Nat → MeltSt × List Nat) :
    ∀ (c : Str) (st : MeltSt) (keys : List Nat),
      (∀ x ∈ c, x ∈ (['.', 's', 'w', 'q', 'Q', 'd'] : List Char)) →
      (cmdLoopWith sf replay st c keys).2.2 = false := by
  intro c
  induction c with
  | nil => intro st keys _; rfl
  | cons ch rest ih =>
      intro st keys h
      have hch := h ch (List.mem_cons_self ch rest)
      have hrest : ∀ x ∈ rest, x ∈ (['.', 's', 'w', 'q', 'Q', 'd'] : List Char) :=
        fun x hx => h x (List.mem_cons_of_mem ch hx)
      unfold cmdLoopWith
      dsimp only
      split_ifs <;>
        first
          | exact ih _ _ hrest
          | (exfalso; simp_all)

/-- On this depth-`fuel` form every `cmdRunDepth` is a `cmdLoopWith`. -/
theorem cmdRunDepth_is_loop (sf : Str → Option Str) (fuel : Nat) :
    ∃ replay, cmdRunDepth sf fuel = cmdLoopWith sf replay := by
  cases fuel with
  | zero => exact ⟨_, rfl⟩
  | succ f => exact ⟨_, rfl⟩

theorem cmdLoopWith_abort_prefix (sf : Str → Option Str)
    (replay : MeltSt → List Nat → MeltSt × List Nat) (u : Char) (suf : Str)
    (hu : u ∉ (['.', 's', 'w', 'q', 'Q', 'd'] : List Char)) :
    ∀ (pre : Str) (st : MeltSt) (keys : List Nat),
      (∀ x ∈ pre, x ∈ (['s', 'w', 'q', 'Q', 'd'] : List Char)) →
      (cmdLoopWith sf replay st (pre ++ u :: suf) keys).1.last_cmd = st.last_cmd ∧
      (cmdLoopWith sf replay st (pre ++ u :: suf) keys).2.2 = true := by
  intro pre
  induction pre with
  | nil =>
      intro st keys _
      simp only [List.nil_append]
      unfold cmdLoopWith
      dsimp only
      have h1 : u ≠ '.' := fun h => hu (by simp [h])
      have h2 : u ≠ 's' := fun h => hu (by simp [h])
      have h3 : u ≠ 'w' := fun h => hu (by simp [h])
      have h4 : u ≠ 'q' := fun h => hu (by simp [h])
      have h5 : u ≠ 'Q' := fun h => hu (by simp [h])
      have h6 : u ≠ 'd' := fun h => hu (by simp [h])
      rw [if_neg h1, if_neg h2, if_neg h3, if_neg h4, if_neg h5, if_neg h6]
      exact ⟨rfl, rfl⟩
  | cons p pre' ih =>
      intro st keys h
      have hp := h p (List.mem_cons_self p pre')
      have hpre' : ∀ x ∈ pre', x ∈ (['s', 'w', 'q', 'Q', 'd'] : List Char) :=
        fun x hx => h x (List.mem_cons_of_mem p hx)
      simp only [List.cons_append]
      unfold cmdLoopWith
      fin_cases hp
      · -- p = 's'
        rw [if_neg (by decide), if_pos rfl]
        obtain ⟨ha, hb⟩ := ih _ keys hpre'
        refine ⟨?_, hb⟩
        rw [ha]
        split <;> rfl
      · -- p = 'w'
        rw [if_neg (by decide), if_neg (by decide), if_pos rfl]
        obtain ⟨ha, hb⟩ := ih _ _ hpre'
        refine ⟨?_, hb⟩
        rw [ha]
        obtain ⟨f, m, g, hw⟩ := wLoop_shape sf
          { st with smessage := resizeStr st.mx "Write file: ".toList } keys []
        rw [hw]
      · -- p = 'q'
        rw [if_neg (by decide), if_neg (by decide), if_neg (by decide), if_pos rfl]
        obtain ⟨ha, hb⟩ := ih _ keys hpre'
        refine ⟨?_, hb⟩
        rw [ha]
        split <;> rfl
      · -- p = 'Q'
        rw [if_neg (by decide), if_neg (by decide), if_neg (by decide),
          if_neg (by decide), if_pos rfl]
        obtain ⟨ha, hb⟩ := ih _ keys hpre'
        exact ⟨by rw [ha], hb⟩
      · -- p = 'd'
        rw [if_neg (by decide), if_neg (by decide), if_neg (by decide),
          if_neg (by decide), if_neg (by decide), if_pos rfl]
        obtain ⟨ha, hb⟩ := ih _ keys hpre'
        refine ⟨?_, hb⟩
        rw [ha]
        split
        · show (mvCursor 0 (-1) { st with lines := rmLn st.cy st.lines }).last_cmd = st.last_cmd
          rw [mvCursor_last_cmd]
        · rfl

/-! ## Claim C1 -/

/-- C1: from every startup state, after any key sequence (edit-mode
keystrokes, mode switches and command execution, with any filesystem
outcome and any replay/loop bounds) the document keeps at least one
line; and the delete-line command, in the only situation where it could
empty the document (one line left, so the cursor row is 0), is refused:
the document is unchanged and the refusal message is set. -/
theorem c1_document_never_empty :
    (∀ (sf : Str → Option Str) (cfuel efuel mx my : Nat) (arg : Option Str)
       (fexists : Bool) (content : Option (List Str)) (keys : List Nat),
       1 ≤ (steps sf cfuel efuel (initEd mx my arg fexists content) keys).lines.length) ∧
    (∀ (sf : Str → Option Str) (fuel : Nat) (st : MeltSt) (keys : List Nat),
       st.lines.length = 1 → st.cy = 0 →
       (processCmd sf fuel st ['d'] keys).1.lines = st.lines ∧
       (processCmd sf fuel st ['d'] keys).1.smessage = onlyOneMsg) := by
  constructor
  · intro sf cfuel efuel mx my arg fexists content keys
    exact steps_lines_ge sf cfuel efuel _ keys
      (initEd_lines_ge mx my arg fexists content)
  · intro sf fuel st keys hlen hcy
    have hcy' : ¬ 0 < st.cy := by omega
    cases fuel <;>
      simp [processCmd, procWrap, cmdRunDepth, cmdLoopWith, hcy']

/-- Witness for C1 at concrete inputs. -/
theorem c1_document_never_empty_witness :
    1 ≤ (steps noFsErr 2 3 (initEd 40 14 none false none) [97, 10, 100]).lines.length ∧
    baseSt.lines.length = 1 ∧ baseSt.cy = 0 ∧
    ((processCmd noFsErr 1 baseSt ['d'] []).1.lines = baseSt.lines ∧
     (processCmd noFsErr 1 baseSt ['d'] []).1.smessage = onlyOneMsg) :=
  ⟨c1_document_never_empty.1 noFsErr 2 3 40 14 none false none [97, 10, 100],
   by decide, by decide,
   c1_document_never_empty.2 noFsErr 1 baseSt [] (by decide) (by decide)⟩

/-! ## Claim C4 -/

/-- C4: evaluation of the code at the failing input. On the four-line
document with the cursor on row 0, the `d` command is refused with the
message "Only one line left!" although four lines remain (the code
checks `cy > 0`, not the line count), so "ddd" deletes nothing there;
started from the last row, "ddd" does delete three lines and leaves
one. -/
theorem c4_delete_refusal_bug :
    (processCmd noFsErr 1 stFour ['d'] []).1.lines = stFour.lines ∧
    stFour.lines.length = 4 ∧
    (processCmd noFsErr 1 stFour ['d'] []).1.smessage = onlyOneMsg ∧
    (processCmd noFsErr 1 stFour ['d', 'd', 'd'] []).1.lines = stFour.lines ∧
    (processCmd noFsErr 1 { stFour with cy := 3 } ['d', 'd', 'd'] []).1.lines.length = 1 := by
  decide

/-! ## Claim C7 -/

/-- C7 counterexample: with the confirmed command string "x" (unknown
command) the interpreter aborts before the `last_cmd = cmd` store, so
the previously stored command "z" - not "x" - remains the command
replayed by `.`. -/
theorem c7_unknown_abort_counterexample :
    stPendingX.cmd = ['x'] ∧
    (processEvents noFsErr 1 stPendingX [10]).1.last_cmd ≠ stPendingX.cmd ∧
    (processEvents noFsErr 1 stPendingX [10]).1.last_cmd = ['z'] := by
  decide

/-- C7 amended: a nonempty confirmed command string made of known
commands is stored for `.` after processing, regardless of
success or failure of the individual commands; but when an unknown
character aborts processing before any `.` was executed, `last_cmd` is
left unchanged. -/
theorem c7_last_cmd_storage :
    (∀ (sf : Str → Option Str) (fuel : Nat) (st : MeltSt) (ks : List Nat),
      st.edmode = 1 → st.cmd ≠ [] →
      (∀ ch ∈ st.cmd, ch ∈ (['.', 's', 'w', 'q', 'Q', 'd'] : List Char)) →
      (processEvents sf fuel st (10 :: ks)).1.last_cmd = st.cmd) ∧
    (∀ (sf : Str → Option Str) (fuel : Nat) (st : MeltSt) (keys : List Nat)
       (pre suf : Str) (u : Char),
      (∀ x ∈ pre, x ∈ (['s', 'w', 'q', 'Q', 'd'] : List Char)) →
      u ∉ (['.', 's', 'w', 'q', 'Q', 'd'] : List Char) →
      (processCmd sf fuel st (pre ++ u :: suf) keys).1.last_cmd = st.last_cmd) := by
  constructor
  · intro sf fuel st ks hed hcmd hall
    unfold processEvents
    dsimp only
    rw [if_neg (by decide), if_neg (by decide), if_neg (by decide),
      if_neg (by decide), if_neg (by decide), if_pos (by decide),
      if_neg (by simp [hed]), if_pos hed]
    dsimp only
    show (processCmd sf fuel st st.cmd ks).1.last_cmd = st.cmd
    unfold processCmd procWrap
    rw [if_neg hcmd]
    obtain ⟨replay, hr⟩ := cmdRunDepth_is_loop sf fuel
    rw [hr]
    dsimp only
    rw [cmdLoopWith_no_abort sf replay st.cmd st ks hall, if_neg (by decide)]
    rw [← hr]
    exact cmdRunDepth_cmd sf fuel st.cmd st ks
  · intro sf fuel st keys pre suf u hpre hu
    unfold processCmd procWrap
    rw [if_neg (by simp)]
    obtain ⟨replay, hr⟩ := cmdRunDepth_is_loop sf fuel
    rw [hr]
    dsimp only
    obtain ⟨ha, hb⟩ := cmdLoopWith_abort_prefix sf replay u suf hu pre st keys hpre
    rw [hb, if_pos rfl]
    exact ha

/-- Witness for C7 at concrete inputs. -/
theorem c7_last_cmd_storage_witness :
    (stPendingQ.edmode = 1 ∧ stPendingQ.cmd ≠ [] ∧
     (∀ ch ∈ stPendingQ.cmd, ch ∈ (['.', 's', 'w', 'q', 'Q', 'd'] : List Char)) ∧
     (processEvents noFsErr 1 stPendingQ [10]).1.last_cmd = stPendingQ.cmd) ∧
    ((∀ x ∈ (['q'] : Str), x ∈ (['s', 'w', 'q', 'Q', 'd'] : List Char)) ∧
     'x' ∉ (['.', 's', 'w', 'q', 'Q', 'd'] : List Char) ∧
     (processCmd noFsErr 1 stPendingX (['q'] ++ 'x' :: []) []).1.last_cmd =
       stPendingX.last_cmd) :=
  ⟨⟨by decide, by decide, by decide,
    c7_last_cmd_storage.1 noFsErr 1 stPendingQ [] (by decide) (by decide) (by decide)⟩,
   ⟨by decide, by decide,
    c7_last_cmd_storage.2 noFsErr 1 stPendingX [] ['q'] [] 'x' (by decide) (by decide)⟩⟩
